import Mathlib

set_option linter.unusedVariables false

/-!
A shallow embedding of the CLI parser library (`src/lib.rs`) and proofs about
its parsing algorithm.

Modelling conventions:
* Rust `HashMap<String, _>` values are modelled as association lists
  (`List (String × _)`) with replace-on-insert semantics (`mapInsert`).
  A `HashMap`'s iteration order is unspecified in Rust; the model iterates in
  insertion order.  The only place this matters is the required-flag
  validation loop, and the theorems below involve at most one required flag,
  where the orders agree.
* The `Peekable<It>` token cursor is the `args : List String` field:
  `peek` is `args.head?`, `next` pops the head.
* Functions returning `Result<T, ParseError>` become
  `Except ParseError T`.  `parse_next` can additionally panic — line 242 of
  the source calls `Option::unwrap` on the active command, which is `None`
  when no command was ever selected — so it returns `PResult Command`, whose
  `panic` constructor stands for exactly that `unwrap` on `None`.
* `CliParser::parse_next_cmd` tail-calls `parse_next`; to avoid mutual
  recursion the embedding's `parse_next_cmd` returns the state on which the
  source performs that tail call, and `parse_next` itself recurses on it.
* Builder methods `Flag::positional`, `Flag::required`, `Command::positional`
  clash with the Lean field names, so they are named `setPositional` /
  `setRequired` here.
-/

namespace CliLib

/-- Association-list model of `HashMap::insert`: replaces the value if the
key is present, otherwise appends the binding. -/
def mapInsert {α : Type} : List (String × α) → String → α → List (String × α)
  | [], k, v => [(k, v)]
  | (k', v') :: rest, k, v =>
    if k' = k then (k, v) :: rest else (k', v') :: mapInsert rest k v

/-- Association-list model of `HashMap::get`. -/
def mapGet {α : Type} : List (String × α) → String → Option α
  | [], _ => none
  | (k', v') :: rest, k => if k' = k then some v' else mapGet rest k

/-- Association-list model of `HashMap::contains_key`. -/
def mapContains {α : Type} (m : List (String × α)) (k : String) : Bool :=
  (mapGet m k).isSome

/-- Model of Rust `str::starts_with`, used by the source as
`starts_with("--")` (flag-name normalization) and `starts_with("-")`
(flag-draining): prefix test on the strings' character lists.  Lean's own
`String.startsWith` is extensionally the same function, but its byte-level
loop is compiled by well-founded recursion, which blocks kernel evaluation
inside proofs, so the character-list form is used. -/
def strStartsWith (s pre : String) : Bool :=
  pre.data.isPrefixOf s.data

/-- `Flag` (src/lib.rs lines 82-90). -/
structure Flag where
  id : String
  positional : Bool
  positional_val : Option String
  required : Bool
deriving DecidableEq

/-- `Flag::new` (lines 94-107): normalizes the id by prepending `--` when
absent; all other fields start out false/empty. -/
def Flag.new (id : String) : Flag :=
  let new_id := if ! strStartsWith id "--" then "--" ++ id else id
  { id := new_id, positional := false, positional_val := none, required := false }

/-- `Flag::positional` builder (lines 110-113). -/
def Flag.setPositional (f : Flag) : Flag := { f with positional := true }

/-- `Flag::required` builder (lines 115-118). -/
def Flag.setRequired (f : Flag) : Flag := { f with required := true }

/-- `Command` (lines 22-33). -/
structure Command where
  id : String
  positional : Bool
  positional_val : Option String
  flags : List (String × Flag)
  parsed_flags : List (String × Flag)
deriving DecidableEq

/-- `Command::new` (lines 42-50). -/
def Command.new (id : String) : Command :=
  { id := id, positional := false, positional_val := none,
    flags := [], parsed_flags := [] }

/-- `Command::positional` builder (lines 53-56). -/
def Command.setPositional (c : Command) : Command := { c with positional := true }

/-- `Command::flag` builder (lines 60-63): inserts into the local flag
namespace keyed by the flag's (already normalized) id. -/
def Command.flag (c : Command) (f : Flag) : Command :=
  { c with flags := mapInsert c.flags f.id f }

/-- `ParseError` (lines 122-134). -/
inductive ParseError where
  | None
  | MissingPositional
  | NoCommands
  | InvalidCommand (name : String)
  | InvalidFlag (name : String)
  | ExpectedCommand
  | ExpectedPositional
  | ExpectedFlag
  | RequiredPositional
  | MissingRequiredFlag (name : String)
deriving DecidableEq

/-- Result of `parse` / `parse_next`: `ok` and `err` mirror
`Result<Command, ParseError>`; `panic` is the outcome of the
`command.to_owned().unwrap()` on line 242 when the option is `None`
(a Rust panic, outside the `Result` type). -/
inductive PResult (α : Type) where
  | ok (a : α)
  | err (e : ParseError)
  | panic
deriving DecidableEq

/-- `CliParser` (lines 149-162) with the token cursor as a plain list. -/
structure CliParser where
  commands : List (String × Command)
  args : List String
  global_flags : List (String × Flag)
  parsed_flags : List (String × Flag)
deriving DecidableEq

/-- `CliParser::from_args` (lines 193-204). -/
def CliParser.from_args (it : List String) : CliParser :=
  { commands := [], args := it, global_flags := [], parsed_flags := [] }

/-- `CliParser::command` (lines 207-210). -/
def CliParser.command (p : CliParser) (command : Command) : CliParser :=
  { p with commands := mapInsert p.commands command.id command }

/-- `CliParser::global_flag` (lines 213-216). -/
def CliParser.global_flag (p : CliParser) (flag : Flag) : CliParser :=
  { p with global_flags := mapInsert p.global_flags flag.id flag }

/-- `CliParser::parse_flag` (lines 285-294): builds a fresh `Flag::new flag_str`
and, when the recipe takes a positional, consumes one token as its value,
failing with `MissingPositional` when none remains. -/
def parse_flag (p : CliParser) (flag_str : String) (flag_recipe : Flag) :
    Except ParseError (Flag × CliParser) :=
  let parsed_flag := Flag.new flag_str
  if flag_recipe.positional then
    match p.args with
    | v :: rest =>
      Except.ok ({ parsed_flag with positional_val := some v }, { p with args := rest })
    | [] => Except.error ParseError.MissingPositional
  else
    Except.ok (parsed_flag, p)

/-- `CliParser::parse_next_flag` (lines 253-281): pops the flag token, resolves
it first against the global namespace (recording the parsed flag in the
parser's own `parsed_flags`), then against the active command's local
namespace (recording it in the command's `parsed_flags`), else fails with
`InvalidFlag`. -/
def parse_next_flag (p : CliParser) (command : Option Command) :
    Except ParseError (CliParser × Option Command) :=
  match p.args with
  | [] => Except.error ParseError.ExpectedFlag
  | flag_str :: rest =>
    let p1 : CliParser := { p with args := rest }
    match mapGet p1.global_flags flag_str with
    | some glob_flag =>
      match parse_flag p1 flag_str glob_flag with
      | Except.error e => Except.error e
      | Except.ok (parsed_flag, p2) =>
        Except.ok
          ({ p2 with parsed_flags := mapInsert p2.parsed_flags flag_str parsed_flag },
           command)
    | none =>
      match command with
      | some c =>
        match mapGet c.flags flag_str with
        | some local_flag =>
          match parse_flag p1 flag_str local_flag with
          | Except.error e => Except.error e
          | Except.ok (parsed_flag, p2) =>
            Except.ok
              (p2,
               some { c with parsed_flags := mapInsert c.parsed_flags flag_str parsed_flag })
        | none => Except.error (ParseError.InvalidFlag flag_str)
      | none => Except.error (ParseError.InvalidFlag flag_str)

theorem parse_flag_args_le {p : CliParser} {s : String} {f : Flag} {fl : Flag}
    {p' : CliParser} (h : parse_flag p s f = Except.ok (fl, p')) :
    p'.args.length ≤ p.args.length := by
  simp only [parse_flag] at h
  split at h
  · split at h
    · rename_i v rest heq
      simp only [Except.ok.injEq, Prod.mk.injEq] at h
      have h2 : p'.args = rest := by rw [← h.2]
      rw [h2, heq]
      simp
    · simp at h
  · simp only [Except.ok.injEq, Prod.mk.injEq] at h
    have h2 : p' = p := h.2.symm
    rw [h2]

theorem parse_next_flag_args_lt {p : CliParser} {c : Option Command}
    {p' : CliParser} {c' : Option Command}
    (h : parse_next_flag p c = Except.ok (p', c')) :
    p'.args.length < p.args.length := by
  simp only [parse_next_flag] at h
  split at h
  · simp at h
  · rename_i flag_str rest heq
    rw [heq]
    simp only [List.length_cons]
    split at h
    · split at h
      · simp at h
      · rename_i hpf
        simp only [Except.ok.injEq, Prod.mk.injEq] at h
        rename_i parsed_flag p2
        have hle : p2.args.length ≤ rest.length := by
          simpa using parse_flag_args_le hpf
        have h1 : p'.args = p2.args := by rw [← h.1]
        rw [h1]
        omega
    · split at h
      · split at h
        · split at h
          · simp at h
          · rename_i hpf
            simp only [Except.ok.injEq, Prod.mk.injEq] at h
            rename_i parsed_flag p2
            have hle : p2.args.length ≤ rest.length := by
              simpa using parse_flag_args_le hpf
            have h1 : p'.args = p2.args := by rw [← h.1]
            rw [h1]
            omega
        · simp at h
      · simp at h

/-- `CliParser::parse_flags` (lines 246-251): drains consecutive tokens that
start with `-`, resolving each with `parse_next_flag`. -/
def parse_flags (p : CliParser) (command : Option Command) :
    Except ParseError (CliParser × Option Command) :=
  match hargs : p.args with
  | [] => Except.ok (p, command)
  | arg :: _ =>
    if strStartsWith arg "-" then
      match hstep : parse_next_flag p command with
      | Except.error e => Except.error e
      | Except.ok (p', command') => parse_flags p' command'
    else
      Except.ok (p, command)
termination_by p.args.length
decreasing_by exact parse_next_flag_args_lt hstep

/-- The required-flag validation loop of `CliParser::parse_next`
(lines 229-238), iterating the active command's local recipes in insertion
order: the first required recipe whose id is absent from the command's
`parsed_flags` yields `MissingRequiredFlag`. -/
def validate_flags : List (String × Flag) → List (String × Flag) → Option ParseError
  | [], _ => none
  | (id, flag) :: rest, parsed =>
    if flag.required && ! mapContains parsed id then
      some (ParseError.MissingRequiredFlag id)
    else
      validate_flags rest parsed

/-- Lines 229-238 of `CliParser::parse_next`: validation runs only when a
command is active. -/
def validate_required (command : Option Command) : Option ParseError :=
  match command with
  | some c => validate_flags c.flags c.parsed_flags
  | none => none

/-- `CliParser::parse_next_cmd` (lines 297-321) up to its tail call: pops the
next token as a command name; when a command is already active its recipe is
reused as-is (the popped token is discarded), otherwise the token is looked
up in the command namespace, failing with `InvalidCommand` when absent; when
the recipe takes a positional, one more token is consumed as its value
(overwriting `positional_val`), failing with `ExpectedPositional` when none
remains.  The source then tail-calls `parse_next`; that recursion is
performed by `parse_next` below on the state returned here. -/
def parse_next_cmd (p : CliParser) (command : Option Command) :
    Except ParseError (CliParser × Command) :=
  match p.args with
  | [] => Except.error ParseError.ExpectedCommand
  | cmd_str :: rest =>
    let p1 : CliParser := { p with args := rest }
    match (match command with
           | some recipe => Except.ok recipe
           | none =>
             match mapGet p1.commands cmd_str with
             | some cmd => Except.ok cmd
             | none => Except.error (ParseError.InvalidCommand cmd_str) :
           Except ParseError Command) with
    | Except.error e => Except.error e
    | Except.ok cmd_recipe =>
      if cmd_recipe.positional then
        match p1.args with
        | pos :: rest2 =>
          Except.ok ({ p1 with args := rest2 },
                     { cmd_recipe with positional_val := some pos })
        | [] => Except.error ParseError.ExpectedPositional
      else
        Except.ok (p1, cmd_recipe)

theorem parse_next_cmd_args_lt {p : CliParser} {c : Option Command}
    {p' : CliParser} {cmd : Command}
    (h : parse_next_cmd p c = Except.ok (p', cmd)) :
    p'.args.length < p.args.length := by
  cases hargs : p.args with
  | nil =>
    simp only [parse_next_cmd, hargs] at h
    exact Except.noConfusion h
  | cons cmd_str rest =>
    simp only [parse_next_cmd, hargs] at h
    split at h
    · exact Except.noConfusion h
    · split at h
      · split at h
        · simp only [Except.ok.injEq, Prod.mk.injEq] at h
          rw [← h.1]
          simp only [List.length_cons]
          omega
        · exact Except.noConfusion h
      · simp only [Except.ok.injEq, Prod.mk.injEq] at h
        rw [← h.1]
        simp

theorem parse_flags_args_le {p : CliParser} {c : Option Command}
    {p' : CliParser} {c' : Option Command}
    (h : parse_flags p c = Except.ok (p', c')) :
    p'.args.length ≤ p.args.length := by
  induction p, c using parse_flags.induct with
  | case1 p c hargs =>
    rw [parse_flags, hargs] at h
    simp only [Except.ok.injEq, Prod.mk.injEq] at h
    rw [← h.1]
  | case2 p c arg rest hargs hpre e hstep =>
    rw [parse_flags, hargs] at h
    simp only [hpre, if_true] at h
    split at h
    · exact Except.noConfusion h
    · rename_i p1 c1 heq
      rw [hstep] at heq
      exact Except.noConfusion heq
  | case3 p c arg rest hargs hpre p1 c1 hstep ih =>
    rw [parse_flags, hargs] at h
    simp only [hpre, if_true] at h
    split at h
    · rename_i e heq
      rw [hstep] at heq
      exact Except.noConfusion heq
    · rename_i p1' c1' heq
      rw [hstep] at heq
      simp only [Except.ok.injEq, Prod.mk.injEq] at heq
      obtain ⟨h1, h2⟩ := heq
      subst h1
      subst h2
      exact le_trans (ih h) (le_of_lt (parse_next_flag_args_lt hstep))
  | case4 p c arg rest hargs hpre =>
    rw [parse_flags, hargs] at h
    simp [hpre] at h
    rw [← h.1]

/-- `CliParser::parse_next` (lines 226-244): drain flags, validate required
flags of the active command, then either finish (returning the active
command, or panicking via `unwrap` when none was ever selected) or take a
command step and recurse. -/
def parse_next (p : CliParser) (command : Option Command) : PResult Command :=
  match hflags : parse_flags p command with
  | Except.error e => PResult.err e
  | Except.ok (p1, command1) =>
    match validate_required command1 with
    | some e => PResult.err e
    | none =>
      if p1.args.isEmpty then
        match command1 with
        | some c => PResult.ok c
        | none => PResult.panic
      else
        match hcmd : parse_next_cmd p1 command1 with
        | Except.error e => PResult.err e
        | Except.ok (p2, cmd_recipe) => parse_next p2 (some cmd_recipe)
termination_by p.args.length
decreasing_by
  exact lt_of_lt_of_le (parse_next_cmd_args_lt hcmd) (parse_flags_args_le hflags)

/-- `CliParser::parse` (lines 222-224). -/
def parse (p : CliParser) : PResult Command :=
  parse_next p none

/-- Unfolding equation for `parse_flags`, restated with a plain (equation-free)
match so it can be applied by `rw`/`simp` without the dependent motive the
termination proof introduces. -/
theorem parse_flags_eq (p : CliParser) (c : Option Command) :
    parse_flags p c =
      match p.args with
      | [] => Except.ok (p, c)
      | arg :: _ =>
        if strStartsWith arg "-" then
          match parse_next_flag p c with
          | Except.error e => Except.error e
          | Except.ok (p', c') => parse_flags p' c'
        else Except.ok (p, c) := by
  rw [parse_flags]
  split
  · rename_i heq
    rw [heq]
  · rename_i arg tail heq
    rw [heq]
    split
    · rename_i hpre
      split
      · rename_i e heq2
        rw [heq2]
        simp [hpre]
      · rename_i p' c' heq2
        rw [heq2]
        simp [hpre]
    · rename_i hpre
      simp [hpre]

/-- Unfolding equation for `parse_next` with a plain match. -/
theorem parse_next_eq (p : CliParser) (c : Option Command) :
    parse_next p c =
      match parse_flags p c with
      | Except.error e => PResult.err e
      | Except.ok (p1, command1) =>
        match validate_required command1 with
        | some e => PResult.err e
        | none =>
          if p1.args.isEmpty then
            match command1 with
            | some cc => PResult.ok cc
            | none => PResult.panic
          else
            match parse_next_cmd p1 command1 with
            | Except.error e => PResult.err e
            | Except.ok (p2, cmd_recipe) => parse_next p2 (some cmd_recipe) := by
  rw [parse_next]
  split
  · rename_i e heq
    rw [heq]
  · rename_i p1 command1 heq
    conv_rhs => rw [heq]
    split
    · rename_i e hval
      simp [hval]
    · rename_i hval
      split
      · rename_i hemp
        split
        · rename_i cc
          simp [hval, hemp]
        · simp [hval, hemp]
      · rename_i hemp
        split
        · rename_i e heq2
          simp [heq2, hval, hemp]
        · rename_i p2 r heq2
          simp [heq2, hval, hemp]

/-- Fuel-indexed clone of `parse_flags`, structurally recursive on the fuel so
the kernel can evaluate it on concrete input (`parse_flags` itself is compiled
by well-founded recursion, which does not reduce definitionally).  The
out-of-fuel value is an arbitrary sentinel; `parse_flagsF_eq` shows it is
never reached when the fuel exceeds the token count. -/
def parse_flagsF : Nat → CliParser → Option Command →
    Except ParseError (CliParser × Option Command)
  | 0, _, _ => Except.error ParseError.None
  | fuel + 1, p, c =>
    match p.args with
    | [] => Except.ok (p, c)
    | arg :: _ =>
      if strStartsWith arg "-" then
        match parse_next_flag p c with
        | Except.error e => Except.error e
        | Except.ok (p', c') => parse_flagsF fuel p' c'
      else Except.ok (p, c)

/-- Fuel-indexed clone of `parse_next`; see `parse_flagsF`. -/
def parse_nextF : Nat → CliParser → Option Command → PResult Command
  | 0, _, _ => PResult.err ParseError.None
  | fuel + 1, p, c =>
    match parse_flagsF (fuel + 1) p c with
    | Except.error e => PResult.err e
    | Except.ok (p1, command1) =>
      match validate_required command1 with
      | some e => PResult.err e
      | none =>
        if p1.args.isEmpty then
          match command1 with
          | some cc => PResult.ok cc
          | none => PResult.panic
        else
          match parse_next_cmd p1 command1 with
          | Except.error e => PResult.err e
          | Except.ok (p2, cmd_recipe) => parse_nextF fuel p2 (some cmd_recipe)

theorem parse_flagsF_eq : ∀ (fuel : Nat) (p : CliParser) (c : Option Command),
    p.args.length < fuel → parse_flagsF fuel p c = parse_flags p c := by
  intro fuel
  induction fuel with
  | zero => intro p c h; exact absurd h (Nat.not_lt_zero _)
  | succ n ih =>
    intro p c h
    rw [parse_flags_eq]
    simp only [parse_flagsF]
    split
    · rfl
    · rename_i arg tail heq
      split
      · split
        · rfl
        · rename_i p' c' heq2
          apply ih
          have h1 : p'.args.length < p.args.length := parse_next_flag_args_lt heq2
          omega
      · rfl

theorem parse_nextF_eq : ∀ (fuel : Nat) (p : CliParser) (c : Option Command),
    p.args.length < fuel → parse_nextF fuel p c = parse_next p c := by
  intro fuel
  induction fuel with
  | zero => intro p c h; exact absurd h (Nat.not_lt_zero _)
  | succ n ih =>
    intro p c h
    rw [parse_next_eq]
    simp only [parse_nextF]
    rw [parse_flagsF_eq (n + 1) p c h]
    split
    · rfl
    · rename_i p1 command1 heq
      split
      · rfl
      · split
        · split <;> rfl
        · rename_i hval hemp
          split
          · rfl
          · rename_i p2 r heq2
            apply ih
            have h1 : p2.args.length < p1.args.length := parse_next_cmd_args_lt heq2
            have h2 : p1.args.length ≤ p.args.length := parse_flags_args_le heq
            omega

/-- Executable form of `parse`: run `parse_nextF` with enough fuel. -/
def parseF (p : CliParser) : PResult Command :=
  parse_nextF (p.args.length + 1) p none

theorem parse_eq_parseF (p : CliParser) : parse p = parseF p := by
  unfold parse parseF
  exact (parse_nextF_eq (p.args.length + 1) p none (Nat.lt_succ_self _)).symm

theorem mapGet_mapInsert_ne {α : Type} (m : List (String × α)) (kIns k : String)
    (v : α) (hne : kIns ≠ k) : mapGet (mapInsert m kIns v) k = mapGet m k := by
  induction m with
  | nil => simp [mapInsert, mapGet, hne]
  | cons hd tl ih =>
    obtain ⟨k', v'⟩ := hd
    simp only [mapInsert]
    by_cases h : k' = kIns
    · subst h
      simp [mapGet, hne]
    · simp only [if_neg h]
      simp [mapGet, ih]

theorem mapContains_mapInsert_ne {α : Type} (m : List (String × α)) (kIns k : String)
    (v : α) (hne : kIns ≠ k) : mapContains (mapInsert m kIns v) k = mapContains m k := by
  simp [mapContains, mapGet_mapInsert_ne m kIns k v hne]

theorem parse_flag_inv {p : CliParser} {s : String} {f fl : Flag} {p' : CliParser}
    (h : parse_flag p s f = Except.ok (fl, p')) :
    p'.commands = p.commands ∧ p'.global_flags = p.global_flags ∧
      p'.parsed_flags = p.parsed_flags := by
  simp only [parse_flag] at h
  split at h
  · split at h
    · simp only [Except.ok.injEq, Prod.mk.injEq] at h
      rw [← h.2]
      exact ⟨rfl, rfl, rfl⟩
    · exact Except.noConfusion h
  · simp only [Except.ok.injEq, Prod.mk.injEq] at h
    rw [← h.2]
    exact ⟨rfl, rfl, rfl⟩

/-- One flag step with an active command: the parser keeps its command and
global namespaces, the command stays active with the same identity and local
namespace, and a key that is present in the global namespace is never added
to (nor removed from) the command's parsed-flag map — a token equal to such a
key resolves globally and is recorded in the parser-level map. -/
theorem parse_next_flag_some_inv {p : CliParser} {c : Command} {p' : CliParser}
    {c1 : Option Command} (h : parse_next_flag p (some c) = Except.ok (p', c1)) :
    p'.commands = p.commands ∧ p'.global_flags = p.global_flags ∧
    ∃ c', c1 = some c' ∧ c'.id = c.id ∧ c'.flags = c.flags ∧
      ∀ k, mapContains p.global_flags k = true →
        mapGet c'.parsed_flags k = mapGet c.parsed_flags k := by
  simp only [parse_next_flag] at h
  split at h
  · exact Except.noConfusion h
  · rename_i flag_str rest heq
    split at h
    · rename_i glob hglob
      split at h
      · exact Except.noConfusion h
      · rename_i pf p2 hpf
        simp only [Except.ok.injEq, Prod.mk.injEq] at h
        obtain ⟨hp', hc1⟩ := h
        obtain ⟨hcm, hgf, _⟩ := parse_flag_inv hpf
        refine ⟨?_, ?_, c, hc1.symm, rfl, rfl, fun k _ => rfl⟩
        · rw [← hp']
          exact hcm
        · rw [← hp']
          exact hgf
    · rename_i hglob
      split at h
      · rename_i loc hloc
        split at h
        · exact Except.noConfusion h
        · rename_i pf p2 hpf
          simp only [Except.ok.injEq, Prod.mk.injEq] at h
          obtain ⟨hp', hc1⟩ := h
          obtain ⟨hcm, hgf, _⟩ := parse_flag_inv hpf
          refine ⟨?_, ?_,
            { c with parsed_flags := mapInsert c.parsed_flags flag_str pf },
            hc1.symm, rfl, rfl, fun k hk => ?_⟩
          · rw [← hp']
            exact hcm
          · rw [← hp']
            exact hgf
          · have hne : flag_str ≠ k := by
              intro hkk
              rw [hkk] at hglob
              simp [mapContains, hglob] at hk
            exact mapGet_mapInsert_ne c.parsed_flags flag_str k pf hne
      · exact Except.noConfusion h

/-- `parse_next_flag_some_inv` extended over the whole flag-draining loop. -/
theorem parse_flags_some_inv {p' : CliParser} {c1 : Option Command} :
    ∀ {p : CliParser} {c : Command},
    parse_flags p (some c) = Except.ok (p', c1) →
    p'.commands = p.commands ∧ p'.global_flags = p.global_flags ∧
    ∃ c', c1 = some c' ∧ c'.id = c.id ∧ c'.flags = c.flags ∧
      ∀ k, mapContains p.global_flags k = true →
        mapGet c'.parsed_flags k = mapGet c.parsed_flags k := by
  intro p c h
  generalize hoc : (some c : Option Command) = oc at h
  induction p, oc using parse_flags.induct generalizing c with
  | case1 p oc hargs =>
    rw [parse_flags, hargs] at h
    simp only [Except.ok.injEq, Prod.mk.injEq] at h
    subst hoc
    exact ⟨(congrArg CliParser.commands h.1).symm,
      (congrArg CliParser.global_flags h.1).symm,
      c, h.2.symm, rfl, rfl, fun k _ => rfl⟩
  | case2 p oc arg rest hargs hpre e hstep =>
    rw [parse_flags, hargs] at h
    simp only [hpre, if_true] at h
    split at h
    · exact Except.noConfusion h
    · rename_i pm cm heq
      rw [hstep] at heq
      exact Except.noConfusion heq
  | case3 p oc arg rest hargs hpre pm cm hstep ih =>
    rw [parse_flags, hargs] at h
    simp only [hpre, if_true] at h
    split at h
    · rename_i e heq
      rw [hstep] at heq
      exact Except.noConfusion heq
    · rename_i pm' cm' heq
      rw [hstep] at heq
      simp only [Except.ok.injEq, Prod.mk.injEq] at heq
      obtain ⟨h1, h2⟩ := heq
      subst h1
      subst h2
      subst hoc
      obtain ⟨hcm0, hgf0, cmid, hcm, hid0, hfl0, hpar0⟩ := parse_next_flag_some_inv hstep
      subst hcm
      obtain ⟨hcm1, hgf1, c', hc1, hid1, hfl1, hpar1⟩ := ih rfl h
      refine ⟨hcm1.trans hcm0, hgf1.trans hgf0, c', hc1, hid1.trans hid0,
        hfl1.trans hfl0, fun k hk => ?_⟩
      have hk' : mapContains pm.global_flags k = true := by rw [hgf0]; exact hk
      exact (hpar1 k hk').trans (hpar0 k hk)
  | case4 p oc arg rest hargs hpre =>
    rw [parse_flags, hargs] at h
    simp [hpre] at h
    subst hoc
    exact ⟨(congrArg CliParser.commands h.1).symm,
      (congrArg CliParser.global_flags h.1).symm,
      c, h.2.symm, rfl, rfl, fun k _ => rfl⟩

/-- The error variants the algorithm can actually return from `parse`:
`MissingPositional` (flag positional missing), `InvalidCommand`,
`InvalidFlag`, `ExpectedPositional`, `MissingRequiredFlag`.  The remaining
variants (`None`, `NoCommands`, `ExpectedCommand`, `ExpectedFlag`,
`RequiredPositional`) are shown below to be unreachable. -/
def surfacedErr : ParseError → Bool
  | ParseError.MissingPositional => true
  | ParseError.InvalidCommand _ => true
  | ParseError.InvalidFlag _ => true
  | ParseError.ExpectedPositional => true
  | ParseError.MissingRequiredFlag _ => true
  | _ => false

theorem parse_flag_err {p : CliParser} {s : String} {f : Flag} {e : ParseError}
    (h : parse_flag p s f = Except.error e) : e = ParseError.MissingPositional := by
  simp only [parse_flag] at h
  split at h
  · split at h
    · exact Except.noConfusion h
    · exact (Except.error.inj h).symm
  · exact Except.noConfusion h

theorem parse_next_flag_err_surfaced {p : CliParser} {c : Option Command}
    {e : ParseError} (hargs : p.args ≠ [])
    (h : parse_next_flag p c = Except.error e) : surfacedErr e = true := by
  simp only [parse_next_flag] at h
  split at h
  · exact absurd (by assumption) hargs
  · split at h
    · split at h
      · rename_i e2 hpf
        rw [← Except.error.inj h]
        rw [parse_flag_err hpf]
        rfl
      · exact Except.noConfusion h
    · split at h
      · split at h
        · split at h
          · rename_i e2 hpf
            rw [← Except.error.inj h]
            rw [parse_flag_err hpf]
            rfl
          · exact Except.noConfusion h
        · rw [← Except.error.inj h]
          rfl
      · rw [← Except.error.inj h]
        rfl

theorem parse_flags_err_surfaced {e : ParseError} :
    ∀ {p : CliParser} {c : Option Command},
    parse_flags p c = Except.error e → surfacedErr e = true := by
  intro p c h
  induction p, c using parse_flags.induct with
  | case1 p c hargs =>
    rw [parse_flags, hargs] at h
    exact Except.noConfusion h
  | case2 p c arg rest hargs hpre e1 hstep =>
    rw [parse_flags, hargs] at h
    simp only [hpre, if_true] at h
    split at h
    · rename_i e2 heq
      rw [← Except.error.inj h]
      exact parse_next_flag_err_surfaced (by rw [hargs]; exact List.cons_ne_nil _ _) heq
    · rename_i pm cm heq
      rw [hstep] at heq
      exact Except.noConfusion heq
  | case3 p c arg rest hargs hpre pm cm hstep ih =>
    rw [parse_flags, hargs] at h
    simp only [hpre, if_true] at h
    split at h
    · rename_i e2 heq
      rw [← Except.error.inj h]
      exact parse_next_flag_err_surfaced (by rw [hargs]; exact List.cons_ne_nil _ _) heq
    · rename_i pm' cm' heq
      rw [hstep] at heq
      simp only [Except.ok.injEq, Prod.mk.injEq] at heq
      obtain ⟨h1, h2⟩ := heq
      subst h1
      subst h2
      exact ih h
  | case4 p c arg rest hargs hpre =>
    rw [parse_flags, hargs] at h
    simp [hpre] at h

theorem validate_flags_shape : ∀ (l m : List (String × Flag)) (e : ParseError),
    validate_flags l m = some e → ∃ s, e = ParseError.MissingRequiredFlag s := by
  intro l
  induction l with
  | nil =>
    intro m e h
    simp [validate_flags] at h
  | cons hd tl ih =>
    intro m e h
    obtain ⟨id, flag⟩ := hd
    simp only [validate_flags] at h
    split at h
    · exact ⟨id, (Option.some.inj h).symm⟩
    · exact ih m e h

theorem validate_required_shape {c : Option Command} {e : ParseError}
    (h : validate_required c = some e) : ∃ s, e = ParseError.MissingRequiredFlag s := by
  simp only [validate_required] at h
  split at h
  · exact validate_flags_shape _ _ _ h
  · exact Option.noConfusion h

theorem parse_next_cmd_err_surfaced {p : CliParser} {c : Option Command}
    {e : ParseError} (hargs : p.args ≠ [])
    (h : parse_next_cmd p c = Except.error e) : surfacedErr e = true := by
  simp only [parse_next_cmd] at h
  split at h
  · exact absurd (by assumption) hargs
  · split at h
    · rename_i e2 hrec
      rw [← Except.error.inj h]
      split at hrec
      · exact Except.noConfusion hrec
      · split at hrec
        · exact Except.noConfusion hrec
        · rw [← Except.error.inj hrec]
          rfl
    · split at h
      · split at h
        · exact Except.noConfusion h
        · rw [← Except.error.inj h]
          rfl
      · exact Except.noConfusion h

theorem parse_next_err_surfaced : ∀ (n : Nat) (p : CliParser) (c : Option Command)
    (e : ParseError), p.args.length ≤ n → parse_next p c = PResult.err e →
    surfacedErr e = true := by
  intro n
  induction n with
  | zero =>
    intro p c e hlen h
    have hargs : p.args = [] := List.length_eq_zero.mp (Nat.le_zero.mp hlen)
    rw [parse_next_eq] at h
    have hfl : parse_flags p c = Except.ok (p, c) := by
      rw [parse_flags_eq, hargs]
    rw [hfl] at h
    simp only at h
    split at h
    · rename_i e1 hval
      rw [← PResult.err.inj h]
      obtain ⟨s, hs⟩ := validate_required_shape hval
      rw [hs]
      rfl
    · rw [if_pos (by rw [hargs]; rfl)] at h
      split at h
      · exact PResult.noConfusion h
      · exact PResult.noConfusion h
  | succ n ih =>
    intro p c e hlen h
    rw [parse_next_eq] at h
    split at h
    · rename_i e1 hfl
      rw [← PResult.err.inj h]
      exact parse_flags_err_surfaced hfl
    · rename_i p1 c1 hfl
      split at h
      · rename_i e1 hval
        rw [← PResult.err.inj h]
        obtain ⟨s, hs⟩ := validate_required_shape hval
        rw [hs]
        rfl
      · rename_i hval
        split at h
        · split at h
          · exact PResult.noConfusion h
          · exact PResult.noConfusion h
        · rename_i hemp
          split at h
          · rename_i e1 hcmd
            rw [← PResult.err.inj h]
            have hne : p1.args ≠ [] := by
              intro hnil
              rw [hnil] at hemp
              exact hemp rfl
            exact parse_next_cmd_err_surfaced hne hcmd
          · rename_i p2 r hcmd
            have h1 : p2.args.length < p1.args.length := parse_next_cmd_args_lt hcmd
            have h2 : p1.args.length ≤ p.args.length := parse_flags_args_le hfl
            exact ih p2 (some r) e (by omega) h

/-- No run of `parse` returns `NoCommands`, `ExpectedCommand` or
`ExpectedFlag` (nor `None` or `RequiredPositional`): every error `parse`
returns satisfies `surfacedErr`. -/
theorem parse_err_surfaced {p : CliParser} {e : ParseError}
    (h : parse p = PResult.err e) : surfacedErr e = true :=
  parse_next_err_surfaced p.args.length p none e le_rfl h

/-- If the local namespace holds a required recipe named `fid` that is absent
from the parsed map, and `fid` is the only required name in the namespace,
the validation loop reports exactly `MissingRequiredFlag fid`. -/
theorem validate_flags_of_missing :
    ∀ (l m : List (String × Flag)) (fid : String) (f : Flag),
    mapGet l fid = some f → f.required = true → mapContains m fid = false →
    (∀ pr ∈ l, pr.2.required = true → pr.1 = fid) →
    validate_flags l m = some (ParseError.MissingRequiredFlag fid) := by
  intro l
  induction l with
  | nil =>
    intro m fid f hget
    simp [mapGet] at hget
  | cons hd tl ih =>
    intro m fid f hget hreq hmiss honly
    obtain ⟨id, flag⟩ := hd
    simp only [validate_flags]
    by_cases hid : id = fid
    · subst hid
      have hf : flag = f := by simpa [mapGet] using hget
      subst hf
      simp [hreq, hmiss]
    · have hnr : flag.required = false := by
        cases hflag : flag.required with
        | false => rfl
        | true => exact absurd (honly (id, flag) (List.mem_cons_self _ _) hflag) hid
      simp only [hnr, Bool.false_and, Bool.false_eq_true, if_false]
      exact ih m fid f (by simpa [mapGet, hid] using hget) hreq hmiss
        (fun pr hm hr => honly pr (List.mem_cons_of_mem _ hm) hr)

theorem strStartsWith_marker (s : String) : strStartsWith ("--" ++ s) "--" = true := by
  have hd : "--".data = ['-', '-'] := rfl
  simp [strStartsWith, String.data_append, hd, List.isPrefixOf]

/-- The normalized id always carries the marker prefix. -/
theorem Flag_new_id_marker (s : String) : strStartsWith (Flag.new s).id "--" = true := by
  simp only [Flag.new]
  cases h : strStartsWith s "--" with
  | false => simp [h, strStartsWith_marker]
  | true => simp [h]

theorem parse_next_of_flags_err {p : CliParser} {c : Option Command} {e : ParseError}
    (hfl : parse_flags p c = Except.error e) : parse_next p c = PResult.err e := by
  rw [parse_next_eq, hfl]

theorem parse_next_of_validate_err {p : CliParser} {c : Option Command}
    {p1 : CliParser} {c1 : Option Command} {e : ParseError}
    (hfl : parse_flags p c = Except.ok (p1, c1))
    (hval : validate_required c1 = some e) : parse_next p c = PResult.err e := by
  rw [parse_next_eq, hfl]
  simp [hval]

theorem parse_next_done {p : CliParser} {c : Option Command} {p1 : CliParser}
    {cc : Command} (hfl : parse_flags p c = Except.ok (p1, some cc))
    (hval : validate_required (some cc) = none) (hemp : p1.args.isEmpty = true) :
    parse_next p c = PResult.ok cc := by
  rw [parse_next_eq, hfl]
  simp [hval, hemp]

theorem parse_next_done_none {p : CliParser} {c : Option Command} {p1 : CliParser}
    (hfl : parse_flags p c = Except.ok (p1, none)) (hemp : p1.args.isEmpty = true) :
    parse_next p c = PResult.panic := by
  rw [parse_next_eq, hfl]
  simp [validate_required, hemp]

theorem parse_next_of_cmd_err {p : CliParser} {c : Option Command} {p1 : CliParser}
    {c1 : Option Command} {e : ParseError}
    (hfl : parse_flags p c = Except.ok (p1, c1))
    (hval : validate_required c1 = none) (hemp : p1.args.isEmpty = false)
    (hcmd : parse_next_cmd p1 c1 = Except.error e) :
    parse_next p c = PResult.err e := by
  rw [parse_next_eq, hfl]
  simp [hval, hemp, hcmd]

theorem parse_next_step_cmd {p : CliParser} {c : Option Command} {p1 : CliParser}
    {c1 : Option Command} {p2 : CliParser} {r : Command}
    (hfl : parse_flags p c = Except.ok (p1, c1))
    (hval : validate_required c1 = none) (hemp : p1.args.isEmpty = false)
    (hcmd : parse_next_cmd p1 c1 = Except.ok (p2, r)) :
    parse_next p c = parse_next p2 (some r) := by
  rw [parse_next_eq, hfl]
  simp [hval, hemp, hcmd]

/-- C1: For the empty token sequence (and any recipe set), `parse` does NOT
return a typed error: `CliParser::parse_next` reaches
`Ok(command.to_owned().unwrap())` with `command = None` and panics.  This
theorem evaluates the code at the failing input, for every recipe set. -/
theorem C1_empty_tokens_panic (cmds : List (String × Command))
    (g pf : List (String × Flag)) :
    parse { commands := cmds, args := [], global_flags := g, parsed_flags := pf } =
      PResult.panic := by
  have hfl : parse_flags
      { commands := cmds, args := [], global_flags := g, parsed_flags := pf }
      (none : Option Command) =
      Except.ok ({ commands := cmds, args := [], global_flags := g, parsed_flags := pf },
        none) := by
    rw [parse_flags_eq]
  exact parse_next_done_none hfl rfl

/-- The parser built by the repository's own test `test_glob_and_local_flags`
(src/lib.rs lines 433-448): tokens `command --glob1 --local1 --glob2`, a
command `command` with a required positional local flag `--local1`, and a
global flag `--glob1`. -/
def globLocalCli : CliParser :=
  ((CliParser.from_args ["command", "--glob1", "--local1", "--glob2"]).command
      ((Command.new "command").flag
        (((Flag.new "--local1").setPositional).setRequired))).global_flag
    (Flag.new "--glob1")

/-- The command value `parse globLocalCli` actually returns: `--glob1` went to
the parser-level map, and `--glob2` was consumed as `--local1`'s positional
value. -/
def globLocalResult : Command :=
  { id := "command", positional := false, positional_val := none,
    flags := [("--local1",
      { id := "--local1", positional := true, positional_val := none,
        required := true })],
    parsed_flags := [("--local1",
      { id := "--local1", positional := false, positional_val := some "--glob2",
        required := false })] }

/-- C2: on the repository's own test input, the returned command's parsed-flag
map does NOT contain the matched global flag `--glob1` (the code records
global matches in the parser-level `CliParser.parsed_flags` map instead), so
the test's assertions `parse_res.parsed_flags.contains_key("--glob1")` and
`("--glob2")` fail; only the local `--local1` is present. -/
theorem C2_global_flags_not_merged :
    parse globLocalCli = PResult.ok globLocalResult
    ∧ mapContains globLocalResult.parsed_flags "--glob1" = false
    ∧ mapContains globLocalResult.parsed_flags "--glob2" = false
    ∧ mapContains globLocalResult.parsed_flags "--local1" = true := by
  refine ⟨?_, by decide, by decide, by decide⟩
  rw [parse_eq_parseF]
  decide

/-- C4: `["command","--local1"]` with a required local flag `--local1` that
takes a positional value and no following token: parse fails with
`MissingPositional`, which is not `MissingRequiredFlag` — the flag step
fails before required-flag validation runs. -/
theorem C4_missing_positional_first :
    parse ((CliParser.from_args ["command", "--local1"]).command
        ((Command.new "command").flag
          (((Flag.new "--local1").setPositional).setRequired))) =
      PResult.err ParseError.MissingPositional
    ∧ ((PResult.err ParseError.MissingPositional : PResult Command) =
        PResult.err (ParseError.MissingRequiredFlag "--local1")) = False := by
  refine ⟨?_, eq_false (by decide)⟩
  rw [parse_eq_parseF]
  decide

/-- C7: flag-name normalization prepends `--` exactly when absent and is
idempotent; `"test"` and `"--test"` register identically, and the
`MissingRequiredFlag` payload is the normalized `"--test"` either way. -/
theorem C7_normalization_idempotent :
    (∀ s : String, Flag.new (Flag.new s).id = Flag.new s)
    ∧ (∀ s : String, strStartsWith s "--" = false → (Flag.new s).id = "--" ++ s)
    ∧ (∀ s : String, strStartsWith s "--" = true → (Flag.new s).id = s)
    ∧ Flag.new "test" = Flag.new "--test"
    ∧ parse ((CliParser.from_args ["cmd"]).command
        ((Command.new "cmd").flag ((Flag.new "test").setRequired))) =
      PResult.err (ParseError.MissingRequiredFlag "--test")
    ∧ parse ((CliParser.from_args ["cmd"]).command
        ((Command.new "cmd").flag ((Flag.new "--test").setRequired))) =
      PResult.err (ParseError.MissingRequiredFlag "--test") := by
  refine ⟨?_, ?_, ?_, by decide, ?_, ?_⟩
  · intro s
    cases h : strStartsWith s "--" with
    | false => simp [Flag.new, h, strStartsWith_marker]
    | true => simp [Flag.new, h]
  · intro s h
    simp [Flag.new, h]
  · intro s h
    simp [Flag.new, h]
  · rw [parse_eq_parseF]
    decide
  · rw [parse_eq_parseF]
    decide

/-- C10: once a command is active, `parse_next_cmd` pops the next token `s`
and discards it — the result does not depend on `s`, the reused recipe is
returned unchanged except that, when the recipe takes a positional, the token
after `s` is consumed and overwrites `positional_val`. -/
theorem C10_active_cmd_token_discarded (p : CliParser) (recipe : Command)
    (s : String) (rest : List String) (hargs : p.args = s :: rest) :
    parse_next_cmd p (some recipe) =
      if recipe.positional then
        match rest with
        | pos :: rest2 =>
          Except.ok ({ p with args := rest2 },
            { recipe with positional_val := some pos })
        | [] => Except.error ParseError.ExpectedPositional
      else Except.ok ({ p with args := rest }, recipe) := by
  simp only [parse_next_cmd, hargs]

/-- C3: when the head token is registered as a global flag, `parse_next_flag`
resolves it with the global recipe `g`: `g.positional` alone decides whether
the following token is consumed, the parsed flag is recorded in the
parser-level map, and the active command (with its colliding local recipe
`l`) is returned untouched — `l` is never consulted. -/
theorem C3_global_wins (p : CliParser) (c : Command) (s : String) (g l : Flag)
    (rest : List String) (hargs : p.args = s :: rest)
    (hg : mapGet p.global_flags s = some g) (hl : mapGet c.flags s = some l) :
    parse_next_flag p (some c) =
      if g.positional then
        match rest with
        | v :: rest2 =>
          Except.ok ({ p with
            args := rest2,
            parsed_flags := mapInsert p.parsed_flags s
              { Flag.new s with positional_val := some v } }, some c)
        | [] => Except.error ParseError.MissingPositional
      else
        Except.ok ({ p with
          args := rest,
          parsed_flags := mapInsert p.parsed_flags s (Flag.new s) }, some c) := by
  simp only [parse_next_flag, hargs, hg, parse_flag]
  cases hgp : g.positional with
  | true =>
    simp only [hgp, if_true]
    cases rest with
    | nil => simp
    | cons v rest2 => simp
  | false =>
    simp [hgp]

/-- C6: a token that starts with the marker but matches neither the global
namespace nor the active command's local namespace makes the flag-draining
loop — and with it `parse_next` — fail with `InvalidFlag` carrying that
token. -/
theorem C6_unknown_flag_invalid (p : CliParser) (c : Option Command) (s : String)
    (rest : List String) (hargs : p.args = s :: rest)
    (hpre : strStartsWith s "-" = true)
    (hg : mapGet p.global_flags s = none)
    (hl : ∀ cc, c = some cc → mapGet cc.flags s = none) :
    parse_flags p c = Except.error (ParseError.InvalidFlag s)
    ∧ parse_next p c = PResult.err (ParseError.InvalidFlag s) := by
  have h1 : parse_next_flag p c = Except.error (ParseError.InvalidFlag s) := by
    simp only [parse_next_flag, hargs, hg]
    cases c with
    | none => rfl
    | some cc => simp [hl cc rfl]
  have h2 : parse_flags p c = Except.error (ParseError.InvalidFlag s) := by
    rw [parse_flags_eq, hargs]
    simp [hpre, h1]
  exact ⟨h2, parse_next_of_flags_err h2⟩

/-- When the validation loop accepts, every required recipe in the checked
namespace really is present in the parsed map: the check covers every
required recipe. -/
theorem validate_flags_none_complete :
    ∀ (l m : List (String × Flag)), validate_flags l m = none →
    ∀ pr ∈ l, pr.2.required = true → mapContains m pr.1 = true := by
  intro l
  induction l with
  | nil =>
    intro m hv pr hm
    exact absurd hm (List.not_mem_nil _)
  | cons hd tl ih =>
    intro m hv pr hm hreq
    obtain ⟨id, flag⟩ := hd
    simp only [validate_flags] at hv
    split at hv
    · exact Option.noConfusion hv
    · rename_i hcond
      rcases List.mem_cons.mp hm with hh | ht
      · rw [hh]
        show mapContains m id = true
        by_contra hx
        have hx2 : mapContains m id = false := by
          cases hxx : mapContains m id with
          | true => exact absurd hxx hx
          | false => rfl
        apply hcond
        have hreq2 : flag.required = true := by
          rw [hh] at hreq
          exact hreq
        rw [hreq2, hx2]
        rfl
      · exact ih m hv pr ht hreq

/-- C8 (amended): of the specified taxonomy, `MissingPositional`,
`InvalidCommand`, `InvalidFlag`, `ExpectedPositional` and
`MissingRequiredFlag` are each surfaced by some recipe set and token
sequence, while `NoCommands`, `ExpectedCommand` and `ExpectedFlag` are never
returned by `parse` on any input. -/
theorem C8_error_taxonomy :
    parse ((CliParser.from_args ["--f"]).global_flag ((Flag.new "f").setPositional)) =
      PResult.err ParseError.MissingPositional
    ∧ parse (CliParser.from_args ["bogus"]) =
      PResult.err (ParseError.InvalidCommand "bogus")
    ∧ parse (CliParser.from_args ["--x"]) =
      PResult.err (ParseError.InvalidFlag "--x")
    ∧ parse ((CliParser.from_args ["cmd"]).command ((Command.new "cmd").setPositional)) =
      PResult.err ParseError.ExpectedPositional
    ∧ parse ((CliParser.from_args ["cmd"]).command
        ((Command.new "cmd").flag ((Flag.new "req").setRequired))) =
      PResult.err (ParseError.MissingRequiredFlag "--req")
    ∧ (∀ p : CliParser, (parse p = PResult.err ParseError.NoCommands) = False)
    ∧ (∀ p : CliParser, (parse p = PResult.err ParseError.ExpectedCommand) = False)
    ∧ (∀ p : CliParser, (parse p = PResult.err ParseError.ExpectedFlag) = False) := by
  refine ⟨?_, ?_, ?_, ?_, ?_, ?_, ?_, ?_⟩
  · rw [parse_eq_parseF]
    decide
  · rw [parse_eq_parseF]
    decide
  · rw [parse_eq_parseF]
    decide
  · rw [parse_eq_parseF]
    decide
  · rw [parse_eq_parseF]
    decide
  · intro p
    exact eq_false (fun h => absurd (parse_err_surfaced h) (by decide))
  · intro p
    exact eq_false (fun h => absurd (parse_err_surfaced h) (by decide))
  · intro p
    exact eq_false (fun h => absurd (parse_err_surfaced h) (by decide))

/-- C8 counterexample: the claim requires a recipe set and token sequence on
which `parse` returns `NoCommands`; no such input exists — the variant is
declared but never constructed. -/
theorem C8_counterexample :
    (∃ p : CliParser, parse p = PResult.err ParseError.NoCommands) = False :=
  eq_false (fun ⟨_, hp⟩ => absurd (parse_err_surfaced hp) (by decide))

/-- C9: when a registered global flag shares the normalized name `fid` of a
required local flag of the active command, (1) no continuation of the token
stream makes `parse_next` succeed on that command, (2) supplying the token
`fid` resolves it against the global recipe and records it in the
parser-level map, leaving the command's parsed-flag map untouched, and
(3) required-flag validation on the command reports `MissingRequiredFlag
fid`. -/
theorem C9_global_shadows_required_local (p : CliParser) (cmd : Command)
    (fid : String) (f g : Flag)
    (hg : mapGet p.global_flags fid = some g)
    (hf : mapGet cmd.flags fid = some f)
    (hreq : f.required = true)
    (hmiss : mapContains cmd.parsed_flags fid = false)
    (honly : ∀ pr ∈ cmd.flags, pr.2.required = true → pr.1 = fid) :
    (∀ (ts : List String) (c' : Command),
      (parse_next { p with args := ts } (some cmd) = PResult.ok c') = False)
    ∧ (∀ rest : List String, g.positional = false →
        parse_next_flag { p with args := fid :: rest } (some cmd) =
          Except.ok ({ p with
            args := rest,
            parsed_flags := mapInsert p.parsed_flags fid (Flag.new fid) }, some cmd))
    ∧ validate_required (some cmd) = some (ParseError.MissingRequiredFlag fid) := by
  have hval0 : validate_required (some cmd) =
      some (ParseError.MissingRequiredFlag fid) := by
    simp only [validate_required]
    exact validate_flags_of_missing cmd.flags cmd.parsed_flags fid f hf hreq hmiss honly
  refine ⟨fun ts c' => eq_false fun hok => ?_, fun rest hgp => ?_, hval0⟩
  · rw [parse_next_eq] at hok
    cases hfl : parse_flags { p with args := ts } (some cmd) with
    | error e =>
      rw [hfl] at hok
      simp at hok
    | ok pc =>
      obtain ⟨p1, c1⟩ := pc
      rw [hfl] at hok
      obtain ⟨hcm, hgf, cmd', hc1, hidm, hflm, hparm⟩ := parse_flags_some_inv hfl
      subst hc1
      have hk : mapContains ({ p with args := ts } : CliParser).global_flags fid = true := by
        simp [mapContains, hg]
      have hmiss' : mapContains cmd'.parsed_flags fid = false := by
        unfold mapContains at hmiss ⊢
        rw [hparm fid hk]
        exact hmiss
      have hval : validate_required (some cmd') =
          some (ParseError.MissingRequiredFlag fid) := by
        simp only [validate_required]
        exact validate_flags_of_missing cmd'.flags cmd'.parsed_flags fid f
          (by rw [hflm]; exact hf) hreq hmiss' (by rw [hflm]; exact honly)
      simp [hval] at hok
  · simp only [parse_next_flag, hg, parse_flag, hgp]
    simp

/-- C5 counterexample: with command `cmd` carrying required local flag
`--req`, the token sequence `["cmd","--bogus"]` selects the command and does
not supply the required flag's token, yet parse yields `InvalidFlag
"--bogus"`, not `MissingRequiredFlag "--req"`. -/
theorem C5_counterexample :
    parse ((CliParser.from_args ["cmd", "--bogus"]).command
        ((Command.new "cmd").flag ((Flag.new "--req").setRequired))) =
      PResult.err (ParseError.InvalidFlag "--bogus")
    ∧ ((PResult.err (ParseError.InvalidFlag "--bogus") : PResult Command) =
        PResult.err (ParseError.MissingRequiredFlag "--req")) = False := by
  refine ⟨?_, eq_false (by decide)⟩
  rw [parse_eq_parseF]
  decide

/-- C5 (amended): selecting a command whose only required local flag `fid` is
not supplied yields `MissingRequiredFlag fid`, provided the command level's
flag-draining completes without error; and whenever the validation loop
accepts, every required recipe of the checked namespace is present — the
check covers every required recipe once draining stops. -/
theorem C5_missing_required_flag (p : CliParser) (cmd : Command) (fid : String)
    (f : Flag) (rest : List String) (p1 : CliParser) (cmd' : Command)
    (hargs : p.args = cmd.id :: rest)
    (hid : strStartsWith cmd.id "-" = false)
    (hcmds : mapGet p.commands cmd.id = some cmd)
    (hpos : cmd.positional = false)
    (hf : mapGet cmd.flags fid = some f)
    (hreq : f.required = true)
    (honly : ∀ pr ∈ cmd.flags, pr.2.required = true → pr.1 = fid)
    (hdrain : parse_flags { p with args := rest } (some cmd) =
      Except.ok (p1, some cmd'))
    (hmiss : mapContains cmd'.parsed_flags fid = false) :
    parse p = PResult.err (ParseError.MissingRequiredFlag fid)
    ∧ (∀ (l m : List (String × Flag)), validate_flags l m = none →
        ∀ pr ∈ l, pr.2.required = true → mapContains m pr.1 = true) := by
  refine ⟨?_, validate_flags_none_complete⟩
  have hfl0 : parse_flags p none = Except.ok (p, none) := by
    rw [parse_flags_eq, hargs]
    simp [hid]
  have hcmd0 : parse_next_cmd p none = Except.ok ({ p with args := rest }, cmd) := by
    simp only [parse_next_cmd, hargs, hcmds, hpos]
    simp
  have hemp : p.args.isEmpty = false := by
    rw [hargs]
    rfl
  have hstep := parse_next_step_cmd hfl0 rfl hemp hcmd0
  obtain ⟨hcm, hgf, cmdd, hc1, hidm, hflm, hparm⟩ := parse_flags_some_inv hdrain
  have hc2 : cmdd = cmd' := (Option.some.inj hc1).symm
  rw [hc2] at hflm
  have hval : validate_required (some cmd') =
      some (ParseError.MissingRequiredFlag fid) := by
    simp only [validate_required]
    exact validate_flags_of_missing cmd'.flags cmd'.parsed_flags fid f
      (by rw [hflm]; exact hf) hreq hmiss (by rw [hflm]; exact honly)
  rw [parse, hstep]
  exact parse_next_of_validate_err hdrain hval

/-- Witness for C3 at a concrete input: the global `--x` takes no positional,
the colliding local `--x` does; resolving `--x` follows the global recipe, so
the following token `"v"` is left unconsumed and the command is untouched. -/
theorem C3_witness :
    parse_next_flag
      { commands := [], args := ["--x", "v"],
        global_flags := [("--x", Flag.new "--x")], parsed_flags := [] }
      (some ((Command.new "c").flag ((Flag.new "--x").setPositional))) =
      Except.ok
        ({ commands := [], args := ["v"],
           global_flags := [("--x", Flag.new "--x")],
           parsed_flags := [("--x", Flag.new "--x")] },
         some ((Command.new "c").flag ((Flag.new "--x").setPositional))) :=
  C3_global_wins
    { commands := [], args := ["--x", "v"],
      global_flags := [("--x", Flag.new "--x")], parsed_flags := [] }
    ((Command.new "c").flag ((Flag.new "--x").setPositional))
    "--x" (Flag.new "--x") ((Flag.new "--x").setPositional) ["v"]
    rfl (by decide) (by decide)

/-- Witness for C5's amended statement at a concrete input. -/
theorem C5_witness :
    parse { commands := [("cmd", (Command.new "cmd").flag ((Flag.new "--req").setRequired))],
            args := ["cmd"], global_flags := [], parsed_flags := [] } =
      PResult.err (ParseError.MissingRequiredFlag "--req") :=
  (C5_missing_required_flag
    { commands := [("cmd", (Command.new "cmd").flag ((Flag.new "--req").setRequired))],
      args := ["cmd"], global_flags := [], parsed_flags := [] }
    ((Command.new "cmd").flag ((Flag.new "--req").setRequired))
    "--req" ((Flag.new "--req").setRequired) []
    { commands := [("cmd", (Command.new "cmd").flag ((Flag.new "--req").setRequired))],
      args := [], global_flags := [], parsed_flags := [] }
    ((Command.new "cmd").flag ((Flag.new "--req").setRequired))
    rfl (by decide) (by decide) (by decide) (by decide) (by decide) (by decide)
    (by rw [parse_flags_eq]) (by decide)).1

/-- Witness for C6 at a concrete input. -/
theorem C6_witness :
    parse_flags
      { commands := [], args := ["--bogus"], global_flags := [], parsed_flags := [] }
      none =
      Except.error (ParseError.InvalidFlag "--bogus")
    ∧ parse_next
      { commands := [], args := ["--bogus"], global_flags := [], parsed_flags := [] }
      none =
      PResult.err (ParseError.InvalidFlag "--bogus") :=
  C6_unknown_flag_invalid
    { commands := [], args := ["--bogus"], global_flags := [], parsed_flags := [] }
    none "--bogus" [] rfl (by decide) rfl (fun cc h => Option.noConfusion h)

/-- Witness for C9 at a concrete input. -/
theorem C9_witness :
    (parse_next
      { commands := [("cmd", (Command.new "cmd").flag ((Flag.new "--x").setRequired))],
        args := ["--x"],
        global_flags := [("--x", Flag.new "--x")], parsed_flags := [] }
      (some ((Command.new "cmd").flag ((Flag.new "--x").setRequired))) =
      PResult.ok (Command.new "z")) = False :=
  (C9_global_shadows_required_local
    { commands := [("cmd", (Command.new "cmd").flag ((Flag.new "--x").setRequired))],
      args := [],
      global_flags := [("--x", Flag.new "--x")], parsed_flags := [] }
    ((Command.new "cmd").flag ((Flag.new "--x").setRequired))
    "--x" ((Flag.new "--x").setRequired) (Flag.new "--x")
    (by decide) (by decide) (by decide) (by decide) (by decide)).1
    ["--x"] (Command.new "z")

/-- Witness for C10 at a concrete input: the bare token `"x"` is consumed and
discarded, and `"v"` overwrites the positional value. -/
theorem C10_witness :
    parse_next_cmd
      { commands := [], args := ["x", "v"], global_flags := [], parsed_flags := [] }
      (some ((Command.new "r").setPositional)) =
      Except.ok
        ({ commands := [], args := [], global_flags := [], parsed_flags := [] },
         { id := "r", positional := true, positional_val := some "v",
           flags := [], parsed_flags := [] }) :=
  C10_active_cmd_token_discarded
    { commands := [], args := ["x", "v"], global_flags := [], parsed_flags := [] }
    ((Command.new "r").setPositional) "x" ["v"] rfl

end CliLib

